import Mathlib

/-!
# Verification of the GraphStorm distributed-training core

A shallow embedding, in Lean 4, of the systems-level parts of the GraphStorm
repository that the specification talks about:

* the collective-communication helpers of `python/graphstorm/data/utils.py`
  (`alltoallv_cpu`, `alltoallv_nccl`, `all_reduce_sum`) together with the raw-text
  persistence helpers (`save_raw_text`, `load_raw_text`) and `get_id`;
* the edge-prediction trainer loop `GSgnnEdgePredictionTrainer.fit` of
  `python/graphstorm/trainer/ep_trainer.py`;
* the layer-wise distributed inference engine `dist_inference` of
  `python/graphstorm/model/gnn_encoder_base.py`.

Tensors are modelled as plain lists of integers (row lists for 2-d tensors);
device moves (`.to(device)`) are identities on values.  The network side of the
point-to-point operations is modelled by an explicit trace of communication
operations plus an oracle for received data.  External ML-framework calls
(`layer(block, h)`, the data loader, `DistributedDataParallel`) are abstracted
as function parameters, since the spec treats them as external collaborators.
-/

namespace GraphStorm

/-! ## Tensors and communication model (`data/utils.py`) -/

/-- A tensor, modelled as an explicit shape plus flat integer data.  Only the
shape and the values matter to the claims about the communication helpers. -/
structure STensor where
  shape : List Nat
  data : List Int
  deriving DecidableEq

instance : Inhabited STensor := ⟨⟨[], []⟩⟩

/-- One network-visible operation issued by a collective-communication helper.
`localCopy i` models the direct assignment `output_tensor_list[i] = input_tensor_list[i]`
performed for the local rank, `send dst t` models `dist.isend(t, dst=dst)`,
`recvFrom src` models `dist.recv(output_tensor_list[src], src=src)` and
`barrier` models `th.distributed.barrier()`. -/
inductive CommOp where
  | localCopy (i : Nat)
  | send (dst : Nat) (t : STensor)
  | recvFrom (src : Nat)
  | barrier
  deriving DecidableEq

/-- Embedding of `alltoallv_cpu(rank, world_size, output_tensor_list, input_tensor_list)`
(`data/utils.py` lines 281-312).  The first loop copies the local entry
(`.to(cpu)` is the identity on values) and issues `isend` for every other rank;
the second loop receives into every non-local output slot (contents supplied by
the oracle `net`); finally a barrier is issued.  The function performs no shape
validation whatsoever: the trace is built unconditionally. -/
def alltoallv_cpu (rank ws : Nat) (out inp : List STensor) (net : Nat → STensor) :
    List STensor × List CommOp :=
  let out1 := if rank < ws then out.set rank (inp.getD rank default) else out
  let ops1 := (List.range ws).map
    (fun i => if i = rank then CommOp.localCopy i else CommOp.send i (inp.getD i default))
  let out2 := (List.range ws).foldl (fun o i => if i ≠ rank then o.set i (net i) else o) out1
  let ops2 := (List.range ws).filterMap
    (fun i => if i ≠ rank then some (CommOp.recvFrom i) else none)
  (out2, ops1 ++ ops2 ++ [CommOp.barrier])

/-- Embedding of `alltoallv_nccl(rank, world_size, output_tensor_list, input_tensor_list)`
(`data/utils.py` lines 314-345).  Identical to `alltoallv_cpu` except that tensors
are not moved to the CPU device, which is invisible in the value model; again no
shape validation is performed before the sends. -/
def alltoallv_nccl (rank ws : Nat) (out inp : List STensor) (net : Nat → STensor) :
    List STensor × List CommOp :=
  let out1 := if rank < ws then out.set rank (inp.getD rank default) else out
  let ops1 := (List.range ws).map
    (fun i => if i = rank then CommOp.localCopy i else CommOp.send i (inp.getD i default))
  let out2 := (List.range ws).foldl (fun o i => if i ≠ rank then o.set i (net i) else o) out1
  let ops2 := (List.range ws).filterMap
    (fun i => if i ≠ rank then some (CommOp.recvFrom i) else none)
  (out2, ops1 ++ ops2 ++ [CommOp.barrier])

/-- Elementwise sum of two tensors (the reduction operator of `ReduceOp.SUM`). -/
def tensorAdd (a b : STensor) : STensor :=
  ⟨a.shape, List.zipWith (· + ·) a.data b.data⟩

/-- Elementwise sum of a whole world of per-rank tensors. -/
def tensorSum : List STensor → STensor
  | [] => default
  | t :: rest => rest.foldl tensorAdd t

/-- Embedding of `all_reduce_sum(tensor)` (`data/utils.py` lines 347-350), which
calls `dist.all_reduce(tensor, op=dist.ReduceOp.SUM)`.  The collective's contract
(per the spec: in-place sum-reduction of a tensor across all ranks) is modelled
globally: given the tensors held by every rank of the world, every rank ends up
holding the elementwise sum. -/
def all_reduce_sum (world : List STensor) : List STensor :=
  world.map (fun _ => tensorSum world)

/-- Whether two tensor lists disagree in shape at some index: the mismatched /
imbalanced situation the spec's failure mode talks about. -/
def shapesMismatch (out inp : List STensor) : Bool :=
  (List.range (max out.length inp.length)).any
    (fun i => (out.getD i default).shape ≠ (inp.getD i default).shape)

/-! ## Association lists (Python `dict` with insertion order) -/

/-- First-match lookup in an association list; models Python `d[k]` / `k in d`. -/
def lookupA {α : Type} (k : String) : List (String × α) → Option α
  | [] => none
  | p :: rest => if p.1 = k then some p.2 else lookupA k rest

/-- Embedding of `get_id(nid_dict, key)` (`data/utils.py` lines 68-84): look the
raw node id up; if absent, assign the next dense integer id (the current size of
the dictionary) and record it.  Returns `((nid, is_new), dictionary after)`. -/
def get_id (nid_dict : List (String × Nat)) (key : String) :
    (Nat × Bool) × List (String × Nat) :=
  match lookupA key nid_dict with
  | some nid => ((nid, false), nid_dict)
  | none => ((nid_dict.length, true), nid_dict ++ [(key, nid_dict.length)])

/-! ## Raw-text persistence (`save_raw_text` / `load_raw_text`) -/

/-- A pickled Python value, as far as these two functions need: strings and
string-keyed dictionaries. -/
inductive PklVal where
  | str (s : String)
  | dict (entries : List (String × PklVal))

/-- Contents of one file: either flat text or a pickled value. -/
inductive FileData where
  | text (s : String)
  | pkl (v : PklVal)

/-- A file system: paths mapped to contents; a write prepends, a read takes the
first (most recent) match. -/
abbrev FileSys := List (String × FileData)

def writeFile (fs : FileSys) (p : String) (d : FileData) : FileSys := (p, d) :: fs

/-- Model of `os.path.join(path, name)` for string arguments. -/
def pathJoin (p f : String) : String := p ++ "/" ++ f

/-- The Python runtime errors these functions can raise. -/
inductive PyErr where
  | typeError
  | fileNotFound
  | attributeError
  | unpicklingError
  deriving DecidableEq

/-- The flat text file produced for one node type: every line followed by a
newline, as written by `f.write("{}\n".format(line))`. -/
def linesOut (lines : List String) : String :=
  String.join (lines.map (fun l => l ++ "\n"))

/-- The lines yielded by Python's `for line in f` after `.strip()`: split on
newlines, dropping the phantom empty chunk after a trailing newline. -/
def fileLines (content : String) : List String :=
  if content = "" then []
  else
    let parts := content.splitOn "\n"
    if content.endsWith "\n" then parts.dropLast else parts

/-- Embedding of `save_raw_text(path, dname, raw_text)` (`data/utils.py` lines
12-29): write one `"{dname}_{ntype}.txt"` file per node type and record the file
names in `config["nodes"]`, then pickle `config` — note the extra `"nodes"`
wrapper dictionary — to `"{dname}.pkl"`. -/
def save_raw_text (fs : FileSys) (path dname : String)
    (raw_text : List (String × List String)) : FileSys :=
  let step := raw_text.foldl
    (fun (acc : FileSys × List (String × PklVal)) p =>
      let nfile := dname ++ "_" ++ p.1 ++ ".txt"
      (writeFile acc.1 (pathJoin path nfile) (FileData.text (linesOut p.2)),
       acc.2 ++ [(p.1, PklVal.str nfile)]))
    (fs, [])
  writeFile step.1 (pathJoin path (dname ++ ".pkl"))
    (FileData.pkl (PklVal.dict [("nodes", PklVal.dict step.2)]))

/-- Embedding of `load_raw_text(path, dname)` (`data/utils.py` lines 48-66):
unpickle `"{dname}.pkl"` into `config`, then iterate `config.items()` directly —
not `config["nodes"].items()` — treating each value as a file name for
`os.path.join`; a non-string value there raises `TypeError` exactly as
`os.path.join(path, <dict>)` does in Python. -/
def load_raw_text (fs : FileSys) (path dname : String) :
    Except PyErr (List (String × List String)) :=
  match lookupA (pathJoin path (dname ++ ".pkl")) fs with
  | none => Except.error PyErr.fileNotFound
  | some (FileData.text _) => Except.error PyErr.unpicklingError
  | some (FileData.pkl config) =>
    match config with
    | PklVal.str _ => Except.error PyErr.attributeError
    | PklVal.dict entries =>
      entries.foldlM
        (fun acc p =>
          match p.2 with
          | PklVal.dict _ => Except.error PyErr.typeError
          | PklVal.str nfile =>
            match lookupA (pathJoin path nfile) fs with
            | some (FileData.text content) =>
              Except.ok (acc ++ [(p.1, (fileLines content).map (fun l => l.trim))])
            | _ => Except.error PyErr.fileNotFound)
        []

/-! ## The edge-prediction trainer loop (`trainer/ep_trainer.py`) -/

/-- The evaluator collaborator of `GSgnnEdgePredictionTrainer.fit`, per the
spec's contract (c): `do_eval(step, epoch_end) -> bool` decides whether to
evaluate, `evaluate` produces a validation score — modelled as a function of the
total step count, since the run is deterministic — and `do_early_stop(score)`
decides early stopping. -/
structure FitCfg where
  doEval : Nat → Bool → Bool
  score : Nat → Int
  earlyStopFn : Int → Bool

/-- Observable events of one `fit` run: an epoch beginning its step loop, one
training step (with its epoch, batch index and the value of `total_steps`), and
one call to `self.eval` + `do_early_stop` (mid-epoch when `epochEnd = false`,
at the epoch boundary when `epochEnd = true`). -/
inductive FitEvent where
  | epochStart (epoch : Nat)
  | step (epoch i ts : Nat)
  | evalAt (epoch ts : Nat) (epochEnd : Bool)
  deriving DecidableEq

/-- The Python runtime error `fit` can raise: comparing `None > 0` when
`save_model_per_iters` is left at its default. -/
inductive PyError where
  | typeError
  deriving DecidableEq

/-- Lines 114-121 / 141-147 of `ep_trainer.py`: if an evaluator is configured
and `do_eval(total_steps, epoch_end)` is true, run the evaluation and ask
`do_early_stop(val_score)`.  Returns the emitted events and the value
`do_early_stop` returned (false when no evaluation ran). -/
def evalCheck (cfg : Option FitCfg) (epoch ts : Nat) (epochEnd : Bool) :
    List FitEvent × Bool :=
  match cfg with
  | none => ([], false)
  | some c =>
    if c.doEval ts epochEnd then
      ([FitEvent.evalAt epoch ts epochEnd], c.earlyStopFn (c.score ts))
    else ([], false)

/-- Result of the inner step loop: events, final `total_steps`, the
`early_stop` flag, and a runtime error if one was raised. -/
structure StepRes where
  evts : List FitEvent
  ts : Nat
  es : Bool
  err : Option PyError

/-- The inner loop `for i, (input_nodes, batch_graph, blocks) in enumerate(train_loader)`
of `fit` (lines 75-131), by remaining batch count.  Each iteration increments
`total_steps`, trains, runs the mid-epoch evaluation check, then evaluates the
per-iteration checkpoint condition `save_model_per_iters > 0` — which raises
`TypeError` when `save_model_per_iters` is `None` — and finally breaks out of
the loop when `early_stop` was set. -/
def runSteps (cfg : Option FitCfg) (smpi : Option Int) (epoch : Nat) :
    Nat → Nat → Nat → StepRes
  | 0, _, ts => ⟨[], ts, false, none⟩
  | rem + 1, i, ts =>
    let ts1 := ts + 1
    let ec := evalCheck cfg epoch ts1 false
    match smpi with
    | none => ⟨FitEvent.step epoch i ts1 :: ec.1, ts1, ec.2, some PyError.typeError⟩
    | some _ =>
      if ec.2 then ⟨FitEvent.step epoch i ts1 :: ec.1, ts1, true, none⟩
      else
        let r := runSteps cfg smpi epoch rem (i + 1) ts1
        ⟨FitEvent.step epoch i ts1 :: (ec.1 ++ r.evts), r.ts, r.es, r.err⟩

/-- The outer epoch loop `for epoch in range(n_epochs)` of `fit` (lines 72-159),
by remaining epoch count.  After the step loop come the barrier, the epoch-end
evaluation check (whose early-stop answer is OR-ed into the flag), the epoch-end
`save_topk_models` call, and the `break` when `early_stop` is set; an error
raised inside the step loop aborts the whole run. -/
def runEpochs (cfg : Option FitCfg) (smpi : Option Int) (nB : Nat → Nat) :
    Nat → Nat → Nat → List FitEvent × Option PyError
  | 0, _, _ => ([], none)
  | rem + 1, e, ts =>
    let r := runSteps cfg smpi e (nB e) 0 ts
    match r.err with
    | some er => (FitEvent.epochStart e :: r.evts, some er)
    | none =>
      let ec := evalCheck cfg e r.ts true
      if r.es || ec.2 then (FitEvent.epochStart e :: (r.evts ++ ec.1), none)
      else
        let rest := runEpochs cfg smpi nB rem (e + 1) r.ts
        (FitEvent.epochStart e :: (r.evts ++ ec.1 ++ rest.1), rest.2)

/-- The training loop of `GSgnnEdgePredictionTrainer.fit` after the
configuration check: `nB e` is the number of mini-batches the train loader
yields in epoch `e`. -/
def fitRun (cfg : Option FitCfg) (smpi : Option Int) (nB : Nat → Nat)
    (nEpochs : Nat) : List FitEvent × Option PyError :=
  runEpochs cfg smpi nB nEpochs 0 0

/-- Embedding of `GSgnnEdgePredictionTrainer.fit` (lines 27-159): first the
precondition check of lines 53-56 — an evaluator without a validation loader is
an `AssertionError` before any training — then the training loop. -/
def fit (cfg : Option FitCfg) (valLoader : Bool) (smpi : Option Int)
    (nB : Nat → Nat) (nEpochs : Nat) :
    Except String (List FitEvent × Option PyError) :=
  if cfg.isSome && !valLoader then
    Except.error "The evaluator is provided but validation set is not provided."
  else
    Except.ok (fitRun cfg smpi nB nEpochs)

/-- Is this event a training step or the start of an epoch?  These are exactly
the events the early-stop property forbids after a positive `do_early_stop`. -/
def isStepOrStart : FitEvent → Bool
  | FitEvent.step _ _ _ => true
  | FitEvent.epochStart _ => true
  | FitEvent.evalAt _ _ _ => false

/-- Did `do_early_stop` return true at this evaluation event? -/
def isTrigger (cfg : Option FitCfg) : FitEvent → Bool
  | FitEvent.evalAt _ ts _ =>
    match cfg with
    | some c => c.earlyStopFn (c.score ts)
    | none => false
  | _ => false

/-- No event of the list is an early-stop trigger. -/
def noTrig (cfg : Option FitCfg) (l : List FitEvent) : Prop :=
  ∀ ev ∈ l, isTrigger cfg ev = false

/-- After every early-stop trigger in the list, no training step executes and no
epoch begins. -/
def stopsCleanly (cfg : Option FitCfg) (l : List FitEvent) : Prop :=
  ∀ l1 ev l2, l = l1 ++ ev :: l2 → isTrigger cfg ev = true →
    ∀ e2 ∈ l2, isStepOrStart e2 = false

/-- Count of training-step events in a trace. -/
def countSteps (l : List FitEvent) : Nat :=
  l.countP (fun ev => match ev with | FitEvent.step _ _ _ => true | _ => false)

/-! ## Per-step label gathering (`fit`, lines 79-89) -/

/-- The mini-batch graph, as the trainer step sees it: its canonical edge types
(DGL's `g.etypes` lists the middle component of each canonical triple) and the
seed edge ids stored under `dgl.EID` per relation name. -/
structure BatchGraph where
  canonicalEtypes : List (String × String × String)
  edgeEID : String → List Nat

/-- DGL's `batch_graph.etypes`: the relation names of the canonical edge types. -/
def bgEtypes (bg : BatchGraph) : List String :=
  bg.canonicalEtypes.map (fun c => c.2.1)

/-- Embedding of lines 85-89 of `fit`: `assert len(batch_graph.etypes) == 1`,
then `predict_etype = batch_graph.canonical_etypes[0]`, then the seed edge ids
are read from `batch_graph.edges[predict_etype[1]].data[dgl.EID]` and the labels
are fetched with `data.get_labels({predict_etype: seeds}, device)`.  `getLabels`
abstracts the external data-loader call; `none` models the `AssertionError`. -/
def stepGatherLabels {L : Type} (getLabels : List ((String × String × String) × List Nat) → L)
    (bg : BatchGraph) : Option L :=
  if (bgEtypes bg).length = 1 then
    let predictEtype := bg.canonicalEtypes.headD ("", "", "")
    some (getLabels [(predictEtype, bg.edgeEID predictEtype.2.1)])
  else none

/-! ## Distributed inference (`model/gnn_encoder_base.py`) -/

/-- A 2-d tensor as a list of rows. -/
abbrev Tensor := List (List Int)

/-- The distributed graph as `dist_inference` consumes it: the node types and
the total node count per type (`g.number_of_nodes(k)`). -/
structure DistGraph where
  ntypes : List String
  numNodes : String → Nat

/-- The `GraphConvEncoder` data `dist_inference` reads: hidden dimension,
output dimension, and the number of GNN layers (`len(gnn_encoder.layers)`). -/
structure EncoderCfg where
  h_dims : Nat
  out_dims : Nat
  nLayers : Nat

/-- What the sampling data loader hands over for input or output nodes: a
per-type dictionary, or — on a homogeneous graph — a bare id tensor. -/
inductive NodeArg where
  | plain (nids : List Nat)
  | dict (m : List (String × List Nat))

/-- One mini-batch of the per-layer inference data loader.  The sampled block is
consumed only by the external layer forward, which is abstracted away, so it
does not appear here. -/
structure MiniBatch where
  inputNodes : NodeArg
  outputNodes : NodeArg

/-- Lines 114-122 of `dist_inference`: a non-dictionary node argument asserts
`len(g.ntypes) == 1` (`none` models the `AssertionError`) and is wrapped into a
dictionary keyed by the unique node type. -/
def wrapNodes (g : DistGraph) : NodeArg → Option (List (String × List Nat))
  | NodeArg.dict m => some m
  | NodeArg.plain nids =>
    if g.ntypes.length = 1 then some [(g.ntypes.headD "", nids)] else none

/-- Line 124: `h = {k: x[k][input_nodes[k]].to(device) for k in input_nodes.keys()}`.
A missing key or an out-of-range node id is a runtime error (`none`). -/
def gatherFeats (x : List (String × Tensor)) :
    List (String × List Nat) → Option (List (String × Tensor))
  | [] => some []
  | (k, nids) :: rest =>
    match lookupA k x with
    | none => none
    | some t =>
      if ∀ n ∈ nids, n < t.length then
        match gatherFeats x rest with
        | none => none
        | some hs => some ((k, nids.map (fun n => t.getD n [])) :: hs)
      else none

/-- Overwrite the tensor rows listed in the index/value pairs, one by one:
the write `y[k][output_nodes[k]] = h[k]`. -/
def writeRows : Tensor → List (Nat × List Int) → Tensor
  | t, [] => t
  | t, (n, v) :: rest => writeRows (t.set n v) rest

/-- Replace the value stored under one key of an association list. -/
def setEntry {α : Type} (l : List (String × α)) (k : String) (v : α) :
    List (String × α) :=
  l.map (fun p => if p.1 = k then (k, v) else p)

/-- Lines 127-131 of `dist_inference`: for every node type in the computed
features `h`, scatter its rows into the layer's output tensor — but only when
the type occurs in the mini-batch's output nodes (`if k in output_nodes`);
otherwise the type is skipped.  A missing output tensor, an out-of-range row
index, or a row-count mismatch is a runtime error (`none`). -/
def scatterResults (out : List (String × List Nat)) :
    List (String × Tensor) → List (String × Tensor) → Option (List (String × Tensor))
  | [], y => some y
  | (k, hk) :: rest, y =>
    match lookupA k out with
    | none => scatterResults out rest y
    | some nids =>
      match lookupA k y with
      | none => none
      | some t =>
        if (∀ n ∈ nids, n < t.length) ∧ hk.length = nids.length then
          scatterResults out rest (setEntry y k (writeRows t (nids.zip hk)))
        else none

/-- The body of the inner data-loader loop (lines 109-131): wrap the input and
output nodes, gather the previous layer's features, run the layer forward
(`layerF` abstracts the external `layer(block, h)` call), and scatter the
results into the output tensors. -/
def procBatch (g : DistGraph) (layerF : List (String × Tensor) → List (String × Tensor))
    (x : List (String × Tensor)) (mb : MiniBatch) (y : List (String × Tensor)) :
    Option (List (String × Tensor)) :=
  match wrapNodes g mb.inputNodes with
  | none => none
  | some inp =>
    match wrapNodes g mb.outputNodes with
    | none => none
    | some out =>
      match gatherFeats x inp with
      | none => none
      | some h0 => scatterResults out (layerF h0) y

/-- Process the whole mini-batch list of one layer in order. -/
def procBatches (g : DistGraph) (layerF : List (String × Tensor) → List (String × Tensor))
    (x : List (String × Tensor)) :
    List MiniBatch → List (String × Tensor) → Option (List (String × Tensor))
  | [], y => some y
  | mb :: rest, y =>
    match procBatch g layerF x mb y with
    | none => none
    | some y2 => procBatches g layerF x rest y2

/-- Lines 88-89: the width of the layer-`i` output tensor,
`gnn_encoder.h_dims if i < len(gnn_encoder.layers) - 1 else gnn_encoder.out_dims`. -/
def allocWidth (enc : EncoderCfg) (i : Nat) : Nat :=
  if i < enc.nLayers - 1 then enc.h_dims else enc.out_dims

/-- Lines 86-94: allocate, for every node type `k`, the layer-`i` distributed
output tensor of shape `(g.number_of_nodes(k), allocWidth enc i)`. -/
def allocLayer (g : DistGraph) (enc : EncoderCfg) (i : Nat) :
    List (String × Tensor) :=
  g.ntypes.map (fun k =>
    (k, List.replicate (g.numNodes k) (List.replicate (allocWidth enc i) (0 : Int))))

/-- One iteration of the outer layer loop: allocate the output tensors, then run
every mini-batch of this layer's data loader. -/
def runLayer (g : DistGraph) (enc : EncoderCfg)
    (layerF : List (String × Tensor) → List (String × Tensor)) (i : Nat)
    (x : List (String × Tensor)) (bs : List MiniBatch) :
    Option (List (String × Tensor)) :=
  procBatches g layerF x bs (allocLayer g enc i)

/-- The layer loop of `dist_inference` by remaining layer count: after each
layer `x := y` and a barrier separates the layers; the final `y` is returned.
With zero layers the Python code would read the unbound variable `y`
(a `NameError`), modelled as `none`. -/
def runLayers (g : DistGraph) (enc : EncoderCfg)
    (layerFn : Nat → List (String × Tensor) → List (String × Tensor))
    (batches : Nat → List MiniBatch) :
    Nat → Nat → List (String × Tensor) → Option (List (String × Tensor))
  | 0, _, _ => none
  | 1, i, x => runLayer g enc (layerFn i) i x (batches i)
  | rem + 2, i, x =>
    match runLayer g enc (layerFn i) i x (batches i) with
    | none => none
    | some y => runLayers g enc layerFn batches (rem + 1) (i + 1) y

/-- Embedding of `dist_inference(g, gnn_encoder, node_feats, batch_size, fanout)`
(`gnn_encoder_base.py` lines 59-135).  The external pieces — the per-layer
forward computation and the sampled mini-batches the distributed data loader
yields for layer `i` — are the parameters `layerFn` and `batches`; everything
the engine itself does (tensor allocation, node wrapping, feature gathering,
result scattering, layer chaining) is computed. -/
def dist_inference (g : DistGraph) (enc : EncoderCfg)
    (layerFn : Nat → List (String × Tensor) → List (String × Tensor))
    (node_feats : List (String × Tensor)) (batches : Nat → List MiniBatch) :
    Option (List (String × Tensor)) :=
  runLayers g enc layerFn batches enc.nLayers 0 node_feats

/-! ## Theorems -/

theorem lookupA_eq_none_iff {α : Type} (k : String) (l : List (String × α)) :
    lookupA k l = none ↔ k ∉ l.map Prod.fst := by
  induction l with
  | nil => simp [lookupA]
  | cons p rest ih =>
    rw [List.map_cons, lookupA]
    by_cases h : p.1 = k
    · subst h
      simp
    · rw [if_neg h, ih]
      constructor
      · intro hk hmem
        rcases List.mem_cons.mp hmem with h1 | h2
        · exact h h1.symm
        · exact hk h2
      · intro hk hmem
        exact hk (List.mem_cons_of_mem _ hmem)

theorem lookupA_mem {α : Type} {k : String} {l : List (String × α)} {v : α}
    (h : lookupA k l = some v) : (k, v) ∈ l := by
  induction l with
  | nil => simp [lookupA] at h
  | cons p rest ih =>
    by_cases hp : p.1 = k
    · rw [lookupA, if_pos hp] at h
      have hv := Option.some.inj h
      have hpk : p = (k, v) := by
        cases p
        cases hp
        cases hv
        rfl
      exact List.mem_cons.mpr (Or.inl hpk.symm)
    · rw [lookupA, if_neg hp] at h
      exact List.mem_cons_of_mem _ (ih h)

/-- A list of naturals that is bounded by its own length and covers every value
below its length is duplicate-free. -/
theorem dense_values_nodup (l : List Nat)
    (hlo : ∀ v ∈ l, v < l.length) (hhi : ∀ v < l.length, v ∈ l) : l.Nodup := by
  have hfin : l.toFinset = Finset.range l.length := by
    ext v
    simp only [List.mem_toFinset, Finset.mem_range]
    exact ⟨fun h => hlo v h, fun h => hhi v h⟩
  have hcard : l.dedup.length = l.length := by
    have hc := List.card_toFinset l
    rw [hfin, Finset.card_range] at hc
    omega
  have hded : l.dedup = l := (List.dedup_sublist l).eq_of_length hcard
  exact List.dedup_eq_self.mp hded

/-- **C4.** In the degenerate single-rank world (`world_size = 1`, `rank = 0`),
`alltoallv_cpu` and `alltoallv_nccl` place the single input tensor into the
output list unchanged, and `all_reduce_sum` leaves the (unique) rank's tensor
unchanged: the collectives degenerate to the identity. -/
theorem claim_C4_single_rank_identity (o i t : STensor) (net : Nat → STensor) :
    (alltoallv_cpu 0 1 [o] [i] net).1 = [i] ∧
    (alltoallv_nccl 0 1 [o] [i] net).1 = [i] ∧
    all_reduce_sum [t] = [t] :=
  ⟨rfl, rfl, rfl⟩

/-- **C1 (counterexample).** A concrete call with mismatched shapes between the
output and input tensor lists: both `alltoallv_cpu` and `alltoallv_nccl`
nevertheless proceed straight to the send loop (the trace contains the network
send), refuting the claim that the primitives validate shapes and report an
explicit failure before issuing sends. -/
theorem claim_C1_counterexample :
    shapesMismatch [⟨[2], [0, 0]⟩, ⟨[2], [0, 0]⟩] [⟨[2], [1, 2]⟩, ⟨[3], [3, 4, 5]⟩] = true ∧
    CommOp.send 1 ⟨[3], [3, 4, 5]⟩ ∈
      (alltoallv_cpu 0 2 [⟨[2], [0, 0]⟩, ⟨[2], [0, 0]⟩]
        [⟨[2], [1, 2]⟩, ⟨[3], [3, 4, 5]⟩] (fun _ => default)).2 ∧
    CommOp.send 1 ⟨[3], [3, 4, 5]⟩ ∈
      (alltoallv_nccl 0 2 [⟨[2], [0, 0]⟩, ⟨[2], [0, 0]⟩]
        [⟨[2], [1, 2]⟩, ⟨[3], [3, 4, 5]⟩] (fun _ => default)).2 := by
  decide

/-- **C1 (amended).** Neither `alltoallv_cpu` nor `alltoallv_nccl` performs any
shape validation: every call with `world_size > 1` unconditionally issues a
network send to every non-local rank, whatever the shapes of the input and
output tensor lists are; a hang, not a reported failure, is the consequence of
a mismatch. -/
theorem claim_C1_amended_no_validation (rank ws : Nat) (out inp : List STensor)
    (net : Nat → STensor) (i : Nat) (hi : i < ws) (hne : i ≠ rank) :
    CommOp.send i (inp.getD i default) ∈ (alltoallv_cpu rank ws out inp net).2 ∧
    CommOp.send i (inp.getD i default) ∈ (alltoallv_nccl rank ws out inp net).2 := by
  have hmem : CommOp.send i (inp.getD i default) ∈ (List.range ws).map
      (fun j => if j = rank then CommOp.localCopy j
                else CommOp.send j (inp.getD j default)) := by
    refine List.mem_map.mpr ⟨i, List.mem_range.mpr hi, ?_⟩
    rw [if_neg hne]
  constructor
  · show CommOp.send i (inp.getD i default) ∈ _ ++ _ ++ [CommOp.barrier]
    exact List.mem_append_left _ (List.mem_append_left _ hmem)
  · show CommOp.send i (inp.getD i default) ∈ _ ++ _ ++ [CommOp.barrier]
    exact List.mem_append_left _ (List.mem_append_left _ hmem)

/-- Witness for the amended C1: the concrete mismatched call of the
counterexample does issue the send to rank 1. -/
theorem claim_C1_amended_witness :
    CommOp.send 1 ⟨[3], [3, 4, 5]⟩ ∈
      (alltoallv_cpu 0 2 [⟨[2], [0, 0]⟩, ⟨[2], [0, 0]⟩]
        [⟨[2], [1, 2]⟩, ⟨[3], [3, 4, 5]⟩] (fun _ => default)).2 :=
  (claim_C1_amended_no_validation 0 2 [⟨[2], [0, 0]⟩, ⟨[2], [0, 0]⟩]
    [⟨[2], [1, 2]⟩, ⟨[3], [3, 4, 5]⟩] (fun _ => default) 1
    (by decide) (by decide)).1

/-- **C5.** `fit` with an evaluator but no validation loader fails with the
assertion error before any training (the training loop is never entered); with
a validation loader, or without an evaluator, the precondition check passes and
the training loop runs. -/
theorem claim_C5_evaluator_requires_val_loader (c : FitCfg) (cfg : Option FitCfg)
    (smpi : Option Int) (nB : Nat → Nat) (nEpochs : Nat) :
    fit (some c) false smpi nB nEpochs =
      Except.error "The evaluator is provided but validation set is not provided." ∧
    fit cfg true smpi nB nEpochs = Except.ok (fitRun cfg smpi nB nEpochs) ∧
    fit none false smpi nB nEpochs = Except.ok (fitRun none smpi nB nEpochs) := by
  refine ⟨rfl, ?_, rfl⟩
  cases cfg <;> rfl

/-- **C6.** Every training step asserts that the mini-batch graph has exactly
one edge type: with any other count the step fails (assertion error, `none`)
before `get_labels` is called, and with exactly one canonical edge type the
labels are fetched keyed by that unique canonical edge type, with the seed edge
ids taken from that relation's `dgl.EID` data. -/
theorem claim_C6_single_etype_assertion {L : Type}
    (getLabels : List ((String × String × String) × List Nat) → L)
    (bg1 bg2 : BatchGraph) (et : String × String × String)
    (h1 : bg1.canonicalEtypes.length ≠ 1)
    (h2 : bg2.canonicalEtypes = [et]) :
    stepGatherLabels getLabels bg1 = none ∧
    stepGatherLabels getLabels bg2 = some (getLabels [(et, bg2.edgeEID et.2.1)]) := by
  constructor
  · unfold stepGatherLabels
    rw [if_neg]
    simpa [bgEtypes] using h1
  · simp [stepGatherLabels, bgEtypes, h2]

/-- Witness for C6: a two-edge-type batch graph is rejected, a one-edge-type
batch graph yields the labels keyed by its canonical edge type. -/
theorem claim_C6_witness :
    stepGatherLabels (fun l => l)
      ⟨[("a", "r1", "b"), ("a", "r2", "b")], fun _ => []⟩ = none ∧
    stepGatherLabels (fun l => l) ⟨[("a", "r", "b")], fun _ => [0, 1]⟩ =
      some [(("a", "r", "b"), [0, 1])] :=
  claim_C6_single_etype_assertion (fun l => l)
    ⟨[("a", "r1", "b"), ("a", "r2", "b")], fun _ => []⟩
    ⟨[("a", "r", "b")], fun _ => [0, 1]⟩ ("a", "r", "b") (by decide) rfl

/-- **C10.** `get_id` maintains a dense consecutive id assignment.  For every
dictionary whose value set is exactly `{0, …, len-1}` (keys duplicate-free):
a present key returns its existing id with `is_new = false` and leaves the
dictionary unchanged; an absent key is inserted with id equal to the previous
size and `is_new = true`; afterwards the keys are still duplicate-free, the
value set is again exactly `{0, …, len-1}`, and distinct keys carry distinct
ids. -/
theorem claim_C10_get_id_dense_ids (d : List (String × Nat)) (key : String)
    (hkeys : (d.map Prod.fst).Nodup)
    (hlo : ∀ v ∈ d.map Prod.snd, v < d.length)
    (hhi : ∀ v < d.length, v ∈ d.map Prod.snd) :
    (∀ n, lookupA key d = some n → get_id d key = ((n, false), d)) ∧
    (lookupA key d = none → get_id d key = ((d.length, true), d ++ [(key, d.length)])) ∧
    ((get_id d key).2.map Prod.fst).Nodup ∧
    (∀ v ∈ (get_id d key).2.map Prod.snd, v < (get_id d key).2.length) ∧
    (∀ v < (get_id d key).2.length, v ∈ (get_id d key).2.map Prod.snd) ∧
    (∀ p ∈ (get_id d key).2, ∀ q ∈ (get_id d key).2, p.1 ≠ q.1 → p.2 ≠ q.2) := by
  have hvnd : (d.map Prod.snd).Nodup := by
    refine dense_values_nodup _ ?_ ?_ <;> rw [List.length_map]
    · exact hlo
    · exact hhi
  have hinj : ∀ p ∈ d, ∀ q ∈ d, p.2 = q.2 → p = q :=
    List.inj_on_of_nodup_map hvnd
  have hlen : (d.map Prod.snd).length = d.length := List.length_map _ _
  cases hlook : lookupA key d with
  | some n =>
    have hid : get_id d key = ((n, false), d) := by
      rw [get_id, hlook]
    refine ⟨?_, ?_, ?_, ?_, ?_, ?_⟩
    · intro n2 h2
      rw [hid, Option.some.inj h2]
    · intro h2
      simp at h2
    · rw [hid]
      exact hkeys
    · rw [hid]
      exact hlo
    · rw [hid]
      exact hhi
    · rw [hid]
      intro p hp q hq hne heq
      exact hne (congrArg Prod.fst (hinj p hp q hq heq))
  | none =>
    have hid : get_id d key = ((d.length, true), d ++ [(key, d.length)]) := by
      rw [get_id, hlook]
    have hknot : key ∉ d.map Prod.fst := (lookupA_eq_none_iff key d).mp hlook
    refine ⟨?_, ?_, ?_, ?_, ?_, ?_⟩
    · intro n2 h2
      simp at h2
    · intro _
      exact hid
    · rw [hid]
      simp only [List.map_append, List.map_cons, List.map_nil]
      rw [List.nodup_append]
      refine ⟨hkeys, List.nodup_singleton key, ?_⟩
      intro a ha hb
      rw [List.mem_singleton] at hb
      subst hb
      exact hknot ha
    · rw [hid]
      intro v hv
      simp only [List.map_append, List.map_cons, List.map_nil, List.mem_append,
        List.mem_singleton, List.length_append, List.length_cons, List.length_nil] at hv ⊢
      rcases hv with hv | hv
      · have := hlo v hv
        omega
      · omega
    · rw [hid]
      intro v hv
      simp only [List.length_append, List.length_cons, List.length_nil] at hv
      simp only [List.map_append, List.map_cons, List.map_nil, List.mem_append,
        List.mem_singleton]
      by_cases hvd : v < d.length
      · exact Or.inl (hhi v hvd)
      · right
        omega
    · rw [hid]
      intro p hp q hq hne heq
      rcases List.mem_append.mp hp with hp | hp <;>
        rcases List.mem_append.mp hq with hq | hq
      · exact hne (congrArg Prod.fst (hinj p hp q hq heq))
      · rw [List.mem_singleton] at hq
        subst hq
        have : p.2 ∈ d.map Prod.snd := List.mem_map_of_mem Prod.snd hp
        have := hlo _ this
        omega
      · rw [List.mem_singleton] at hp
        subst hp
        have : q.2 ∈ d.map Prod.snd := List.mem_map_of_mem Prod.snd hq
        have := hlo _ this
        omega
      · rw [List.mem_singleton] at hp hq
        subst hp
        subst hq
        exact hne rfl

/-- Witness for C10: inserting a fresh key into a dense two-entry dictionary
assigns it id 2 and appends it. -/
theorem claim_C10_witness :
    get_id [("a", 0), ("b", 1)] "c" = ((2, true), [("a", 0), ("b", 1), ("c", 2)]) :=
  (claim_C10_get_id_dense_ids [("a", 0), ("b", 1)] "c"
    (by decide) (by decide) (by decide)).2.1 rfl

/-- **C8 (code bug).** The raw-text persistence does not round-trip: for every
file system, path, dataset name and raw-text mapping, `load_raw_text` after
`save_raw_text` raises `TypeError`.  `save_raw_text` pickles the configuration
wrapped as `{"nodes": {ntype: file}}`, while `load_raw_text` iterates the
outer dictionary's items directly, so the first value it meets is the inner
dictionary and `os.path.join(path, <dict>)` raises `TypeError` — it never
reconstructs any raw text, contradicting the claimed round trip. -/
theorem claim_C8_roundtrip_raises_typeerror (fs : FileSys) (path dname : String)
    (raw_text : List (String × List String)) :
    load_raw_text (save_raw_text fs path dname raw_text) path dname =
      Except.error PyErr.typeError := by
  rw [save_raw_text, load_raw_text]
  simp [writeFile, lookupA, List.foldlM_cons]

theorem stopsCleanly_nil (cfg : Option FitCfg) : stopsCleanly cfg [] := by
  intro l1 ev l2 heq
  exact absurd heq (by simp)

theorem stopsCleanly_singleton (cfg : Option FitCfg) (x : FitEvent) :
    stopsCleanly cfg [x] := by
  intro l1 ev l2 heq _ e2 he2
  have hlen := congrArg List.length heq
  simp [List.length_append] at hlen
  have hl2 : l2 = [] := List.eq_nil_of_length_eq_zero (by omega)
  subst hl2
  simp at he2

theorem noTrig_stopsCleanly {cfg : Option FitCfg} {l : List FitEvent}
    (h : noTrig cfg l) : stopsCleanly cfg l := by
  intro l1 ev l2 heq htrig
  have hev : ev ∈ l := by
    rw [heq]
    exact List.mem_append_right _ (List.mem_cons_self _ _)
  rw [h ev hev] at htrig
  cases htrig

theorem noTrig_append {cfg : Option FitCfg} {a b : List FitEvent}
    (ha : noTrig cfg a) (hb : noTrig cfg b) : noTrig cfg (a ++ b) := by
  intro ev hev
  rcases List.mem_append.mp hev with h | h
  · exact ha ev h
  · exact hb ev h

theorem noTrig_cons {cfg : Option FitCfg} {x : FitEvent} {l : List FitEvent}
    (hx : isTrigger cfg x = false) (hl : noTrig cfg l) : noTrig cfg (x :: l) := by
  intro ev hev
  rcases List.mem_cons.mp hev with h | h
  · rw [h]
    exact hx
  · exact hl ev h

/-- If nothing in `a` triggers early stop, post-trigger cleanliness of `a ++ b`
reduces to that of `b`. -/
theorem stopsCleanly_append_noTrig {cfg : Option FitCfg} {a b : List FitEvent}
    (ha : noTrig cfg a) (hb : stopsCleanly cfg b) : stopsCleanly cfg (a ++ b) := by
  intro l1 ev l2 heq htrig e2 he2
  rcases List.append_eq_append_iff.mp heq with ⟨a2, _, h2⟩ | ⟨c2, h1, h2⟩
  · exact hb a2 ev l2 h2 htrig e2 he2
  · cases c2 with
    | nil =>
      simp only [List.nil_append] at h2
      exact hb [] ev l2 h2.symm htrig e2 he2
    | cons x m =>
      rw [List.cons_append] at h2
      obtain ⟨hex, _⟩ := List.cons.inj h2
      subst hex
      have hev : ev ∈ a := by
        rw [h1]
        exact List.mem_append_right _ (List.mem_cons_self _ _)
      rw [ha ev hev] at htrig
      cases htrig

/-- Appending only non-step events preserves post-trigger cleanliness. -/
theorem stopsCleanly_append_stepFree {cfg : Option FitCfg} {a b : List FitEvent}
    (ha : stopsCleanly cfg a) (hb : ∀ e ∈ b, isStepOrStart e = false) :
    stopsCleanly cfg (a ++ b) := by
  intro l1 ev l2 heq htrig e2 he2
  rcases List.append_eq_append_iff.mp heq with ⟨a2, _, h2⟩ | ⟨c2, h1, h2⟩
  · refine hb e2 ?_
    rw [h2]
    exact List.mem_append_right _ (List.mem_cons_of_mem _ he2)
  · cases c2 with
    | nil =>
      simp only [List.nil_append] at h2
      refine hb e2 ?_
      rw [← h2]
      exact List.mem_cons_of_mem _ he2
    | cons x m =>
      rw [List.cons_append] at h2
      obtain ⟨hex, hl2⟩ := List.cons.inj h2
      subst hex
      rw [hl2] at he2
      rcases List.mem_append.mp he2 with hm | hbm
      · exact ha l1 ev m h1 htrig e2 hm
      · exact hb e2 hbm

theorem stopsCleanly_cons {cfg : Option FitCfg} {x : FitEvent} {l : List FitEvent}
    (hx : isTrigger cfg x = false) (hl : stopsCleanly cfg l) :
    stopsCleanly cfg (x :: l) := by
  have : stopsCleanly cfg ([x] ++ l) :=
    stopsCleanly_append_noTrig (by
      intro ev hev
      rw [List.mem_singleton] at hev
      rw [hev]
      exact hx) hl
  simpa using this

theorem evalCheck_stepFree (cfg : Option FitCfg) (epoch ts : Nat) (ee : Bool) :
    ∀ e ∈ (evalCheck cfg epoch ts ee).1, isStepOrStart e = false := by
  intro e he
  cases cfg with
  | none => simp [evalCheck] at he
  | some c =>
    by_cases h : c.doEval ts ee
    · simp [evalCheck, h] at he
      rw [he]
      rfl
    · simp [evalCheck, h] at he

theorem evalCheck_noTrig (cfg : Option FitCfg) (epoch ts : Nat) (ee : Bool)
    (h2 : (evalCheck cfg epoch ts ee).2 = false) :
    noTrig cfg (evalCheck cfg epoch ts ee).1 := by
  intro e he
  cases cfg with
  | none => simp [evalCheck] at he
  | some c =>
    by_cases h : c.doEval ts ee
    · simp [evalCheck, h] at he h2
      rw [he]
      simpa [isTrigger] using h2
    · simp [evalCheck, h] at he

theorem evalCheck_clean (cfg : Option FitCfg) (epoch ts : Nat) (ee : Bool) :
    stopsCleanly cfg (evalCheck cfg epoch ts ee).1 := by
  cases cfg with
  | none => exact stopsCleanly_nil _
  | some c =>
    by_cases h : c.doEval ts ee
    · simp only [evalCheck, h, if_true]
      exact stopsCleanly_singleton _ _
    · simp only [evalCheck, h, if_false]
      exact stopsCleanly_nil _

/-- The step loop emits a trace that is clean after any early-stop trigger, and
emits no trigger at all when it neither set the flag nor raised an error. -/
theorem runSteps_props (cfg : Option FitCfg) (smpi : Option Int) (epoch : Nat) :
    ∀ rem i ts, stopsCleanly cfg (runSteps cfg smpi epoch rem i ts).evts ∧
      ((runSteps cfg smpi epoch rem i ts).es = false →
        (runSteps cfg smpi epoch rem i ts).err = none →
        noTrig cfg (runSteps cfg smpi epoch rem i ts).evts) := by
  intro rem
  induction rem with
  | zero =>
    intro i ts
    constructor
    · exact stopsCleanly_nil _
    · intro _ _ ev hev
      simp [runSteps] at hev
  | succ rem ih =>
    intro i ts
    cases smpi with
    | none =>
      simp only [runSteps]
      constructor
      · exact stopsCleanly_cons rfl (evalCheck_clean cfg epoch (ts + 1) false)
      · intro _ herr
        simp at herr
    | some v =>
      cases hec : (evalCheck cfg epoch (ts + 1) false).2 with
      | true =>
        simp only [runSteps, hec, if_true]
        constructor
        · exact stopsCleanly_cons rfl (evalCheck_clean cfg epoch (ts + 1) false)
        · intro hes
          simp at hes
      | false =>
        simp only [runSteps, hec, Bool.false_eq_true, if_false]
        obtain ⟨ihc, ihn⟩ := ih (i + 1) (ts + 1)
        constructor
        · refine stopsCleanly_cons rfl ?_
          exact stopsCleanly_append_noTrig
            (evalCheck_noTrig cfg epoch (ts + 1) false hec) ihc
        · intro hes herr
          refine noTrig_cons rfl ?_
          exact noTrig_append (evalCheck_noTrig cfg epoch (ts + 1) false hec)
            (ihn hes herr)

/-- The whole epoch loop emits a trace that is clean after any early-stop
trigger: no training step and no epoch start follow a positive
`do_early_stop`. -/
theorem runEpochs_clean (cfg : Option FitCfg) (smpi : Option Int) (nB : Nat → Nat) :
    ∀ rem e ts, stopsCleanly cfg (runEpochs cfg smpi nB rem e ts).1 := by
  intro rem
  induction rem with
  | zero =>
    intro e ts
    exact stopsCleanly_nil _
  | succ rem ih =>
    intro e ts
    simp only [runEpochs]
    obtain ⟨hclean, hnt⟩ := runSteps_props cfg smpi e (nB e) 0 ts
    cases herr : (runSteps cfg smpi e (nB e) 0 ts).err with
    | some er =>
      exact stopsCleanly_cons rfl hclean
    | none =>
      cases hstop : ((runSteps cfg smpi e (nB e) 0 ts).es ||
          (evalCheck cfg e (runSteps cfg smpi e (nB e) 0 ts).ts true).2) with
      | true =>
        simp only [if_true]
        refine stopsCleanly_cons rfl ?_
        exact stopsCleanly_append_stepFree hclean
          (evalCheck_stepFree cfg e (runSteps cfg smpi e (nB e) 0 ts).ts true)
      | false =>
        simp only [if_false]
        rw [Bool.or_eq_false_iff] at hstop
        refine stopsCleanly_cons rfl ?_
        refine stopsCleanly_append_noTrig ?_
          (ih (e + 1) (runSteps cfg smpi e (nB e) 0 ts).ts)
        exact noTrig_append (hnt hstop.1 herr)
          (evalCheck_noTrig cfg e (runSteps cfg smpi e (nB e) 0 ts).ts true hstop.2)

/-- **C3.** Once `do_early_stop` returns true — at a mid-epoch evaluation or at
an epoch boundary — no further training step executes and no further epoch
begins: every event following the triggering evaluation in the `fit` trace is
neither a training step nor an epoch start. -/
theorem claim_C3_early_stop_terminates (cfg : FitCfg) (smpi : Option Int)
    (nB : Nat → Nat) (nEpochs : Nat) (l1 : List FitEvent) (ev : FitEvent)
    (l2 : List FitEvent)
    (heq : (fitRun (some cfg) smpi nB nEpochs).1 = l1 ++ ev :: l2)
    (htrig : isTrigger (some cfg) ev = true) :
    ∀ e2 ∈ l2, isStepOrStart e2 = false :=
  runEpochs_clean (some cfg) smpi nB nEpochs 0 0 l1 ev l2 heq htrig

/-- Witness for C3: with an always-evaluating, always-stopping evaluator, three
scheduled epochs of two batches each stop after the very first step; the only
event after the mid-epoch trigger is the epoch-boundary evaluation. -/
theorem claim_C3_witness :
    isStepOrStart (FitEvent.evalAt 0 1 true) = false :=
  claim_C3_early_stop_terminates
    ⟨fun _ _ => true, fun _ => 0, fun _ => true⟩ (some 5) (fun _ => 2) 3
    [FitEvent.epochStart 0, FitEvent.step 0 0 1] (FitEvent.evalAt 0 1 false)
    [FitEvent.evalAt 0 1 true] rfl rfl
    (FitEvent.evalAt 0 1 true) (List.mem_singleton.mpr rfl)

/-- With an integer `save_model_per_iters`, the step loop never raises. -/
theorem runSteps_some_err_none (cfg : Option FitCfg) (v : Int) (epoch : Nat) :
    ∀ rem i ts, (runSteps cfg (some v) epoch rem i ts).err = none := by
  intro rem
  induction rem with
  | zero =>
    intro i ts
    rfl
  | succ rem ih =>
    intro i ts
    cases hec : (evalCheck cfg epoch (ts + 1) false).2 with
    | true => simp only [runSteps, hec, if_true]
    | false =>
      simp only [runSteps, hec, Bool.false_eq_true, if_false]
      exact ih (i + 1) (ts + 1)

/-- With an integer `save_model_per_iters`, the whole training loop never
raises. -/
theorem runEpochs_some_err_none (cfg : Option FitCfg) (v : Int) (nB : Nat → Nat) :
    ∀ rem e ts, (runEpochs cfg (some v) nB rem e ts).2 = none := by
  intro rem
  induction rem with
  | zero =>
    intro e ts
    rfl
  | succ rem ih =>
    intro e ts
    simp only [runEpochs, runSteps_some_err_none cfg v e (nB e) 0 ts]
    cases hstop : ((runSteps cfg (some v) e (nB e) 0 ts).es ||
        (evalCheck cfg e (runSteps cfg (some v) e (nB e) 0 ts).ts true).2) with
    | true => simp only [if_true]
    | false =>
      simp only [Bool.false_eq_true, if_false]
      exact ih (e + 1) (runSteps cfg (some v) e (nB e) 0 ts).ts

theorem evalCheck_countSteps (cfg : Option FitCfg) (epoch ts : Nat) (ee : Bool) :
    countSteps (evalCheck cfg epoch ts ee).1 = 0 := by
  cases cfg with
  | none => rfl
  | some c =>
    by_cases h : c.doEval ts ee <;> simp [evalCheck, h, countSteps]

/-- **C9.** With the default `save_model_per_iters = None` and a non-empty
train loader, the first training step of `fit` raises `TypeError` when the
per-iteration checkpoint condition evaluates `save_model_per_iters > 0` on
`None` — exactly one step event precedes the error — whereas any integer value
for `save_model_per_iters` lets the whole run finish without a runtime error. -/
theorem claim_C9_none_save_iters_typeerror (cfg : Option FitCfg) (nB : Nat → Nat)
    (nEpochs : Nat) (v : Int) (h1 : 0 < nB 0) (h2 : 0 < nEpochs) :
    (fitRun cfg none nB nEpochs).2 = some PyError.typeError ∧
    countSteps (fitRun cfg none nB nEpochs).1 = 1 ∧
    (fitRun cfg (some v) nB nEpochs).2 = none := by
  obtain ⟨k, hk⟩ : ∃ k, nEpochs = k + 1 := ⟨nEpochs - 1, by omega⟩
  obtain ⟨b, hb⟩ : ∃ b, nB 0 = b + 1 := ⟨nB 0 - 1, by omega⟩
  have hrs : runSteps cfg none 0 (nB 0) 0 0 =
      ⟨FitEvent.step 0 0 1 :: (evalCheck cfg 0 1 false).1, 1,
        (evalCheck cfg 0 1 false).2, some PyError.typeError⟩ := by
    rw [hb]
    rfl
  have hre : runEpochs cfg none nB (k + 1) 0 0 =
      (FitEvent.epochStart 0 :: FitEvent.step 0 0 1 :: (evalCheck cfg 0 1 false).1,
        some PyError.typeError) := by
    simp only [runEpochs, hrs]
  refine ⟨?_, ?_, ?_⟩
  · rw [fitRun, hk, hre]
  · rw [fitRun, hk, hre]
    simp [countSteps, List.countP_cons, evalCheck_countSteps cfg 0 1 false]
    intro a ha
    have hsf := evalCheck_stepFree cfg 0 1 false a ha
    cases a with
    | step e i ts => simp [isStepOrStart] at hsf
    | epochStart e => rfl
    | evalAt e ts ee => rfl
  · rw [fitRun]
    exact runEpochs_some_err_none cfg v nB nEpochs 0 0

/-- Witness for C9: one epoch of one batch with no evaluator raises `TypeError`
after its single step under `save_model_per_iters = None`, and finishes cleanly
under `save_model_per_iters = 5`. -/
theorem claim_C9_witness :
    (fitRun none none (fun _ => 1) 1).2 = some PyError.typeError ∧
    countSteps (fitRun none none (fun _ => 1) 1).1 = 1 ∧
    (fitRun none (some 5) (fun _ => 1) 1).2 = none :=
  claim_C9_none_save_iters_typeerror none (fun _ => 1) 1 5 (by decide) (by decide)

theorem writeRows_length : ∀ (ps : List (Nat × List Int)) (t : Tensor),
    (writeRows t ps).length = t.length := by
  intro ps
  induction ps with
  | nil =>
    intro t
    rfl
  | cons p rest ih =>
    intro t
    rw [writeRows, ih, List.length_set]

theorem lookupA_setEntry_ne {α : Type} {k k2 : String} (y : List (String × α))
    (v : α) (hne : k ≠ k2) : lookupA k (setEntry y k2 v) = lookupA k y := by
  induction y with
  | nil => rfl
  | cons p rest ih =>
    by_cases hp : p.1 = k2
    · simp only [setEntry, List.map_cons, if_pos hp, lookupA]
      rw [if_neg (fun h => hne h.symm), if_neg (by rw [hp]; exact fun h => hne h.symm)]
      exact ih
    · simp only [setEntry, List.map_cons, if_neg hp, lookupA]
      by_cases hk : p.1 = k
      · rw [if_pos hk, if_pos hk]
      · rw [if_neg hk, if_neg hk]
        exact ih

theorem lookupA_setEntry_self {α : Type} {k2 : String} (y : List (String × α))
    (v : α) : lookupA k2 (setEntry y k2 v) =
      (lookupA k2 y).map (fun _ => v) := by
  induction y with
  | nil => rfl
  | cons p rest ih =>
    by_cases hp : p.1 = k2
    · simp [setEntry, lookupA, hp]
    · simp only [setEntry, List.map_cons, if_neg hp, lookupA, if_neg hp]
      exact ih

/-- Scattering preserves the row count of every output tensor. -/
theorem scatter_lengths {out : List (String × List Nat)} :
    ∀ (h : List (String × Tensor)) (y y2 : List (String × Tensor)),
      scatterResults out h y = some y2 →
      ∀ k, (lookupA k y2).map List.length = (lookupA k y).map List.length := by
  intro h
  induction h with
  | nil =>
    intro y y2 hs k
    rw [scatterResults] at hs
    rw [Option.some.inj hs]
  | cons p rest ih =>
    intro y y2 hs k
    rw [scatterResults] at hs
    cases ho : lookupA p.1 out with
    | none =>
      simp only [ho] at hs
      exact ih y y2 hs k
    | some nids =>
      simp only [ho] at hs
      cases hy : lookupA p.1 y with
      | none =>
        simp only [hy] at hs
        cases hs
      | some t =>
        simp only [hy] at hs
        by_cases hif : (∀ n ∈ nids, n < t.length) ∧ p.2.length = nids.length
        · rw [if_pos hif] at hs
          have hrec := ih _ y2 hs k
          rw [hrec]
          by_cases hk : k = p.1
          · subst hk
            rw [lookupA_setEntry_self, hy]
            simp [writeRows_length]
          · rw [lookupA_setEntry_ne _ _ hk]
        · rw [if_neg hif] at hs
          cases hs

/-- A node type absent from the mini-batch's output nodes is skipped: its
output tensor entry is untouched by the scatter. -/
theorem scatter_skip {out : List (String × List Nat)} {k : String} :
    ∀ (h : List (String × Tensor)) (y y2 : List (String × Tensor)),
      scatterResults out h y = some y2 → lookupA k out = none →
      lookupA k y2 = lookupA k y := by
  intro h
  induction h with
  | nil =>
    intro y y2 hs _
    rw [scatterResults] at hs
    rw [Option.some.inj hs]
  | cons p rest ih =>
    intro y y2 hs hko
    rw [scatterResults] at hs
    cases ho : lookupA p.1 out with
    | none =>
      simp only [ho] at hs
      exact ih y y2 hs hko
    | some nids =>
      simp only [ho] at hs
      cases hy : lookupA p.1 y with
      | none =>
        simp only [hy] at hs
        cases hs
      | some t =>
        simp only [hy] at hs
        by_cases hif : (∀ n ∈ nids, n < t.length) ∧ p.2.length = nids.length
        · rw [if_pos hif] at hs
          have hne : k ≠ p.1 := by
            intro hkp
            rw [hkp, ho] at hko
            cases hko
          rw [ih _ y2 hs hko, lookupA_setEntry_ne _ _ hne]
        · rw [if_neg hif] at hs
          cases hs

/-- One mini-batch preserves the row count of every output tensor. -/
theorem procBatch_lengths {g : DistGraph}
    {layerF : List (String × Tensor) → List (String × Tensor)}
    {x : List (String × Tensor)} {mb : MiniBatch} {y y2 : List (String × Tensor)}
    (hpb : procBatch g layerF x mb y = some y2) :
    ∀ k, (lookupA k y2).map List.length = (lookupA k y).map List.length := by
  rw [procBatch] at hpb
  cases hin : wrapNodes g mb.inputNodes with
  | none =>
    simp only [hin] at hpb
    cases hpb
  | some inp =>
    simp only [hin] at hpb
    cases hout : wrapNodes g mb.outputNodes with
    | none =>
      simp only [hout] at hpb
      cases hpb
    | some outn =>
      simp only [hout] at hpb
      cases hg : gatherFeats x inp with
      | none =>
        simp only [hg] at hpb
        cases hpb
      | some h0 =>
        simp only [hg] at hpb
        exact scatter_lengths (layerF h0) y y2 hpb

theorem procBatches_lengths {g : DistGraph}
    {layerF : List (String × Tensor) → List (String × Tensor)}
    {x : List (String × Tensor)} :
    ∀ (bs : List MiniBatch) (y y2 : List (String × Tensor)),
      procBatches g layerF x bs y = some y2 →
      ∀ k, (lookupA k y2).map List.length = (lookupA k y).map List.length := by
  intro bs
  induction bs with
  | nil =>
    intro y y2 hp k
    rw [procBatches] at hp
    rw [Option.some.inj hp]
  | cons mb rest ih =>
    intro y y2 hp k
    rw [procBatches] at hp
    cases hb : procBatch g layerF x mb y with
    | none =>
      simp only [hb] at hp
      cases hp
    | some y1 =>
      simp only [hb] at hp
      rw [ih y1 y2 hp k, procBatch_lengths hb k]

theorem lookupA_map_pairs {α : Type} (f : String → α) :
    ∀ (l : List String) (k : String), k ∈ l →
      lookupA k (l.map (fun s => (s, f s))) = some (f k) := by
  intro l
  induction l with
  | nil =>
    intro k hk
    cases hk
  | cons s rest ih =>
    intro k hk
    rcases List.mem_cons.mp hk with h | h
    · subst h
      simp [lookupA]
    · by_cases hs : s = k
      · subst hs
        simp [lookupA]
      · simp only [List.map_cons, lookupA, if_neg hs]
        exact ih k h

/-- The allocation of layer `i` gives node type `k` a fresh
`(g.number_of_nodes k) × allocWidth` tensor. -/
theorem allocLayer_lookup {g : DistGraph} {enc : EncoderCfg} {i : Nat}
    {k : String} (hk : k ∈ g.ntypes) :
    lookupA k (allocLayer g enc i) =
      some (List.replicate (g.numNodes k) (List.replicate (allocWidth enc i) (0 : Int))) :=
  lookupA_map_pairs _ g.ntypes k hk

/-- After one full layer, every node type's output tensor has exactly the
type's node count as row count. -/
theorem runLayer_rows {g : DistGraph} {enc : EncoderCfg}
    {layerF : List (String × Tensor) → List (String × Tensor)} {i : Nat}
    {x y : List (String × Tensor)} {bs : List MiniBatch}
    (hr : runLayer g enc layerF i x bs = some y) :
    ∀ k ∈ g.ntypes, (lookupA k y).map List.length = some (g.numNodes k) := by
  intro k hk
  rw [runLayer] at hr
  rw [procBatches_lengths bs _ y hr k, allocLayer_lookup hk]
  simp

theorem runLayers_rows {g : DistGraph} {enc : EncoderCfg}
    {layerFn : Nat → List (String × Tensor) → List (String × Tensor)}
    {batches : Nat → List MiniBatch} :
    ∀ (rem i : Nat) (x ys : List (String × Tensor)),
      runLayers g enc layerFn batches rem i x = some ys →
      ∀ k ∈ g.ntypes, (lookupA k ys).map List.length = some (g.numNodes k) := by
  intro rem
  induction rem with
  | zero =>
    intro i x ys hr
    cases hr
  | succ rem ih =>
    intro i x ys hr
    cases rem with
    | zero =>
      rw [runLayers] at hr
      exact runLayer_rows hr
    | succ rem0 =>
      rw [runLayers] at hr
      cases hl : runLayer g enc (layerFn i) i x (batches i) with
      | none =>
        simp only [hl] at hr
        cases hr
      | some y =>
        simp only [hl] at hr
        exact ih (i + 1) y ys hr

/-- **C2.** For every layer index `i` and node type `k`, `dist_inference`
allocates the layer-`i` output tensor for `k` with shape
`(g.number_of_nodes k, w)` where `w` is the encoder's hidden dimension for
every non-final layer and its output dimension for the final layer; and the
embedding dictionary the call returns gives node type `k` a tensor with exactly
`g.number_of_nodes k` rows. -/
theorem claim_C2_inference_tensor_shapes (g : DistGraph) (enc : EncoderCfg)
    (i : Nat) (k : String)
    (layerFn : Nat → List (String × Tensor) → List (String × Tensor))
    (node_feats : List (String × Tensor)) (batches : Nat → List MiniBatch)
    (ys : List (String × Tensor)) (hk : k ∈ g.ntypes)
    (hrun : dist_inference g enc layerFn node_feats batches = some ys) :
    lookupA k (allocLayer g enc i) =
      some (List.replicate (g.numNodes k)
        (List.replicate (allocWidth enc i) (0 : Int))) ∧
    (i + 1 < enc.nLayers → allocWidth enc i = enc.h_dims) ∧
    (i + 1 = enc.nLayers → allocWidth enc i = enc.out_dims) ∧
    (lookupA k ys).map List.length = some (g.numNodes k) := by
  refine ⟨allocLayer_lookup hk, ?_, ?_, ?_⟩
  · intro hlt
    rw [allocWidth, if_pos (by omega)]
  · intro hlast
    rw [allocWidth, if_neg (by omega)]
  · rw [dist_inference] at hrun
    exact runLayers_rows enc.nLayers 0 node_feats ys hrun k hk

/-- Witness for C2: a one-type graph with 2 nodes, a 2-layer encoder with
hidden width 3 and output width 2, and one 2-node mini-batch per layer. -/
theorem claim_C2_witness :
    lookupA "n0" (allocLayer ⟨["n0"], fun _ => 2⟩ ⟨3, 2, 2⟩ 1) =
      some (List.replicate 2 (List.replicate (allocWidth ⟨3, 2, 2⟩ 1) (0 : Int))) ∧
    (1 + 1 < 2 → allocWidth ⟨3, 2, 2⟩ 1 = 3) ∧
    (1 + 1 = 2 → allocWidth ⟨3, 2, 2⟩ 1 = 2) ∧
    (lookupA "n0" [("n0", [[1, 2, 3], [4, 5, 6]])]).map List.length = some 2 :=
  claim_C2_inference_tensor_shapes ⟨["n0"], fun _ => 2⟩ ⟨3, 2, 2⟩ 1 "n0"
    (fun _ h => h) [("n0", [[1, 2, 3], [4, 5, 6]])]
    (fun _ => [⟨NodeArg.plain [0, 1], NodeArg.plain [0, 1]⟩])
    [("n0", [[1, 2, 3], [4, 5, 6]])] (by simp) rfl

/-- **C7.** On a graph with exactly one node type, a bare (non-dictionary) node
tensor from the sampler is wrapped into a dictionary keyed by that unique node
type before feature lookup — and only then: with any other node-type count the
bare tensor trips the assertion.  Moreover a node type present in the computed
features `h` but absent from the mini-batch's output nodes is skipped when
scattering: its output tensor entry is unchanged by the batch. -/
theorem claim_C7_wrap_and_skip (g1 g2 : DistGraph) (nids1 nids2 : List Nat)
    (outn : List (String × List Nat)) (h : List (String × Tensor))
    (y y2 : List (String × Tensor)) (k : String)
    (h1 : g1.ntypes.length = 1) (h2 : g2.ntypes.length ≠ 1)
    (h3 : scatterResults outn h y = some y2) (h4 : lookupA k outn = none) :
    wrapNodes g1 (NodeArg.plain nids1) = some [(g1.ntypes.headD "", nids1)] ∧
    wrapNodes g2 (NodeArg.plain nids2) = none ∧
    lookupA k y2 = lookupA k y := by
  refine ⟨?_, ?_, scatter_skip h y y2 h3 h4⟩
  · simp [wrapNodes, h1]
  · simp [wrapNodes, h2]

/-- Witness for C7: wrapping succeeds on a one-type graph and fails on a
two-type graph; scattering `h = {a, b}` with output nodes only for `a` leaves
the `b` output tensor unchanged. -/
theorem claim_C7_witness :
    wrapNodes ⟨["n0"], fun _ => 0⟩ (NodeArg.plain [5]) = some [("n0", [5])] ∧
    wrapNodes ⟨["a", "b"], fun _ => 0⟩ (NodeArg.plain [5]) = none ∧
    lookupA "b" ([("a", [[7]]), ("b", [[1]])] : List (String × Tensor)) =
      lookupA "b" ([("a", [[0]]), ("b", [[1]])] : List (String × Tensor)) :=
  claim_C7_wrap_and_skip ⟨["n0"], fun _ => 0⟩ ⟨["a", "b"], fun _ => 0⟩ [5] [5]
    [("a", [0])] [("a", [[7]]), ("b", [[9]])] [("a", [[0]]), ("b", [[1]])]
    [("a", [[7]]), ("b", [[1]])] "b" rfl (by decide) rfl rfl

end GraphStorm
